import Mathlib

/-!
Shallow embedding of `src/algorithm/Power.h` (namespace `RL`), the POWER
policy-improvement algorithm.  Scalars (`double` in the source) are modelled
by `ℚ`; the parameter/state/noise vector type `TParameter` by `Fin d → ℚ`;
the weight matrix type `TWeight` by `Matrix (Fin d) (Fin d) ℚ`.  In this
field model `x⁻¹` at `x = 0` yields `0` where IEEE doubles yield a
non-finite value; theorems touching that corner note it explicitly.
The world (`IWorld`) and the noise policy (`continuousNoisePolicy`, declared
in the external header `ContinuousNoisePolicy.h`) are external collaborators
and are modelled as abstract deterministic function records.
-/

namespace RL

/-- State / parameter / noise vector of dimension `d` (`TParameter`). -/
abbrev Vec (d : Nat) := Fin d → ℚ

/-- Weight matrix of dimension `d × d` (`TWeight`). -/
abbrev Mat (d : Nat) := Matrix (Fin d) (Fin d) ℚ

/-- External collaborator `IWorld`: `act(state, action, nextState)` returns the
reward and writes the next state (modelled as returning both), plus the
terminal-state predicate `isTerminal`. -/
structure World (d : Nat) where
  act : Vec d → ℚ → ℚ × Vec d
  isTerminal : Vec d → Bool

/-- External collaborator `continuousNoisePolicy(theta, state, epsilon)`:
returns the action and the noise sample `epsilon` actually used. -/
structure NoisePolicy (d : Nat) where
  sample : Vec d → Vec d → ℚ × Vec d

variable {d : Nat}

/-- The do-while rollout loop of `episode` (Power.h lines 30–42).  One loop
body always executes; `fuel` counts the iterations the guard
`step < episodeLength` still allows after the current one, so the initial
call uses `episodeLength - 1`.  Returns the `rewards`, `epsilons` and
`states` vectors built by the three `push_back` calls, in that order. -/
def rolloutFrom (w : World d) (p : NoisePolicy d) (theta : Vec d) :
    Vec d → Nat → List ℚ × List (Vec d) × List (Vec d)
  | state, 0 =>
    let ae := p.sample theta state
    let rn := w.act state ae.1
    ([rn.1], [ae.2], [state])
  | state, fuel + 1 =>
    let ae := p.sample theta state
    let rn := w.act state ae.1
    let rest :=
      if w.isTerminal rn.2 then (([] : List ℚ), ([] : List (Vec d)), ([] : List (Vec d)))
      else rolloutFrom w p theta rn.2 fuel
    (rn.1 :: rest.1, ae.2 :: rest.2.1, state :: rest.2.2)

/-- The rollout phase of `episode`: state starts at `TParameter::Zero()`
(line 26) and the loop runs with step budget `episodeLength`. -/
def rollout (w : World d) (p : NoisePolicy d) (theta : Vec d)
    (episodeLength : Nat) : List ℚ × List (Vec d) × List (Vec d) :=
  rolloutFrom w p theta (0 : Vec d) (episodeLength - 1)

/-- The reverse traversal of the reward-to-go pass (Power.h lines 46–50):
walk the reversed reward list keeping the running sum `acc` and write the
updated sum into each slot. -/
def sumSuffix : ℚ → List ℚ → List ℚ
  | _, [] => []
  | acc, r :: rest => (acc + r) :: sumSuffix (acc + r) rest

/-- Reward-to-go pass: the in-place reverse-iterator loop of Power.h lines
46–50, expressed as reversing, accumulating, and reversing back. -/
def rewardToGo (rs : List ℚ) : List ℚ :=
  (sumSuffix 0 rs.reverse).reverse

/-- The scalar quadratic form `states[i].transpose() * sigma * states[i]`
(Power.h line 59; `sigma` is a scalar `double` in the source). -/
def quadForm (sigma : ℚ) (s : Vec d) : ℚ :=
  Matrix.dotProduct s (sigma • s)

/-- The per-step precision weight of Power.h lines 54–59: identity at index
0, otherwise the outer product `states[i] * states[i].transpose()` scaled by
`1.0 / (states[i].transpose() * sigma * states[i])`. -/
def weightAt (sigma : ℚ) (states : List (Vec d)) (i : Nat) : Mat d :=
  if i = 0 then 1
  else
    (quadForm sigma (states.getD i 0))⁻¹ •
      Matrix.vecMulVec (states.getD i 0) (states.getD i 0)

/-- The accumulation loop of Power.h lines 53–62, starting from the
accumulator pair `init`:
`weightRewards += weight * rewards[i]` and
`epsilonRewards += weight * epsilons[i] * rewards[i]`. -/
def accumW (sigma : ℚ) (agg : List ℚ) (epsilons states : List (Vec d))
    (init : Mat d × Vec d) : Mat d × Vec d :=
  (List.range agg.length).foldl
    (fun acc i =>
      (acc.1 + agg.getD i 0 • weightAt sigma states i,
       acc.2 + agg.getD i 0 • (weightAt sigma states i).mulVec (epsilons.getD i 0)))
    init

/-- `RL::episode` (Power.h lines 21–64).  `weightRewards0` and
`epsilonRewards0` are the incoming contents of the by-reference out-parametes
`weightRewards` and `epsilonRewards`; lines 51–52 overwrite both with zero
before any read, so the accumulation starts from `(0, 0)` and the incoming
values are discarded.  Returns the final `weightRewards`, the final
`epsilonRewards`, and the returned `rewards[0]`. -/
def episode (w : World d) (p : NoisePolicy d) (theta : Vec d)
    (weightRewards0 : Mat d) (epsilonRewards0 : Vec d) (sigma : ℚ)
    (episodeLength : Nat) : Mat d × Vec d × ℚ :=
  let tr := rollout w p theta episodeLength
  let agg := rewardToGo tr.1
  let acc := accumW sigma agg tr.2.1 tr.2.2 (0, 0)
  (acc.1, acc.2, agg.headD 0)

/-- Error type the spec prescribes for a reimplementation (§7); the source
itself has no error channel. -/
inductive PowerError where
  | DegenerateWeightError (stepIndex : Nat)

/-- Whether an `Except` computation finished without raising. -/
def exceptOk {ε α : Type} : Except ε α → Bool
  | Except.ok _ => true
  | Except.error _ => false

/-- `RL::episode` embedded with an explicit error channel.  The C++ body of
`episode` contains no `throw` and cannot raise, so the embedding is
`Except.ok` of the total result on every input. -/
def episodeExc (w : World d) (p : NoisePolicy d) (theta : Vec d) (sigma : ℚ)
    (episodeLength : Nat) : Except PowerError (Mat d × Vec d × ℚ) :=
  Except.ok (episode w p theta 0 0 sigma episodeLength)

/-- Matrix inverse as provided by the external numeric library
(`sumWeightRewards.inverse()`, Power.h line 92): the classical adjugate
formula, zero when the determinant is zero. -/
def minv (A : Mat d) : Mat d := A.det⁻¹ • A.adjugate

/-- The episode loop of `RL::episodes` (Power.h lines 83–90): run
`updateEpisode` episodes at the fixed `sigma = 0.5`, accumulating
`sumWeightRewards`, `sumEpsilonRewards` and the summed returns `rewards`.
The out-parameters passed to `episode` are freshly declared each iteration
and overwritten inside `episode`, so `(0, 0)` is passed. -/
def sumEpisodes (w : World d) (p : NoisePolicy d) (theta : Vec d)
    (updateEpisode episodeLength : Nat) : Mat d × Vec d × ℚ :=
  (List.range updateEpisode).foldl
    (fun acc _ =>
      let e := episode w p theta 0 0 (1 / 2) episodeLength
      (acc.1 + e.1, acc.2.1 + e.2.1, acc.2.2 + e.2.2))
    (0, 0, 0)

/-- `RL::episodes` (Power.h lines 77–95): divide both sums by
`updateEpisode`, solve `update = sumWeightRewards.inverse() *
sumEpsilonRewards`, and return the mean reward.  Returns
`(update, mean reward)`. -/
def episodes (w : World d) (p : NoisePolicy d) (theta : Vec d)
    (updateEpisode episodeLength : Nat) : Vec d × ℚ :=
  let s := sumEpisodes w p theta updateEpisode episodeLength
  let meanW := (updateEpisode : ℚ)⁻¹ • s.1
  let meanE := (updateEpisode : ℚ)⁻¹ • s.2.1
  ((minv meanW).mulVec meanE, s.2.2 / (updateEpisode : ℚ))

/-- `RL::power` (Power.h lines 98–107): `updates` iterations of computing the
batch update at the current `theta` and adding it to `theta`.  The mutated
`theta` is returned. -/
def power (w : World d) (p : NoisePolicy d) :
    Vec d → Nat → Nat → Nat → Vec d
  | theta, 0, _, _ => theta
  | theta, u + 1, uE, L =>
    power w p (theta + (episodes w p theta uE L).1) u uE L

/-- Test world (dimension 1): constant reward 1, next state equal to the
current state, never terminal. -/
def W1 : World 1 := ⟨fun s _ => (1, s), fun _ => false⟩

/-- Test noise policy: action 0 and exploration noise fixed to zero. -/
def P1 : NoisePolicy 1 := ⟨fun _ _ => (0, 0)⟩

/-- Zero parameter vector in dimension 1. -/
def vz : Vec 1 := 0

/-- Test world (dimension 1) for Scenario A: constant reward 1, next state
equal to the current state plus one, never terminal.  From the zero initial
state the recorded states are 0, 1, 2, so the quadratic form
`stateᵗ · sigma · state` is nonzero at every step index above 0 and no
division by zero occurs anywhere in the episode. -/
def W2 : World 1 := ⟨fun s _ => (1, s + 1), fun _ => false⟩

lemma sumSuffix_append_singleton (x : ℚ) :
    ∀ (l : List ℚ) (a : ℚ), sumSuffix a (l ++ [x]) = sumSuffix a l ++ [a + l.sum + x]
  | [], a => by simp [sumSuffix]
  | y :: l, a => by
    simp only [List.cons_append, sumSuffix, List.append_eq]
    rw [sumSuffix_append_singleton x l (a + y)]
    simp [List.sum_cons, add_assoc]

lemma rewardToGo_nil : rewardToGo ([] : List ℚ) = [] := rfl

lemma rewardToGo_cons (r : ℚ) (rs : List ℚ) :
    rewardToGo (r :: rs) = (r + rs.sum) :: rewardToGo rs := by
  unfold rewardToGo
  rw [List.reverse_cons, sumSuffix_append_singleton, List.reverse_append]
  simp [List.sum_reverse]
  ring

lemma rewardToGo_length (rs : List ℚ) : (rewardToGo rs).length = rs.length := by
  induction rs with
  | nil => rfl
  | cons r rs ih => simp [rewardToGo_cons, ih]

lemma rewardToGo_getD : ∀ (rs : List ℚ) (i : Nat),
    (rewardToGo rs).getD i 0 = (rs.drop i).sum
  | [], i => by simp [rewardToGo_nil]
  | r :: rs, 0 => by simp [rewardToGo_cons]
  | r :: rs, i + 1 => by
    simp only [rewardToGo_cons, List.getD_cons_succ, List.drop_succ_cons]
    exact rewardToGo_getD rs i

lemma sum_drop_succ : ∀ (rs : List ℚ) (i : Nat), i < rs.length →
    (rs.drop i).sum = rs.getD i 0 + (rs.drop (i + 1)).sum
  | [], i, h => absurd h (by simp)
  | r :: rs, 0, _ => by simp
  | r :: rs, i + 1, h => by
    simpa using sum_drop_succ rs i (by simpa using h)

lemma headD_eq_getD (l : List ℚ) : l.headD 0 = l.getD 0 0 := by
  cases l <;> rfl

lemma rolloutFrom_lengths (w : World d) (p : NoisePolicy d) (theta : Vec d) :
    ∀ (fuel : Nat) (state : Vec d),
      (rolloutFrom w p theta state fuel).2.1.length =
          (rolloutFrom w p theta state fuel).1.length ∧
      (rolloutFrom w p theta state fuel).2.2.length =
          (rolloutFrom w p theta state fuel).1.length ∧
      1 ≤ (rolloutFrom w p theta state fuel).1.length ∧
      (rolloutFrom w p theta state fuel).1.length ≤ fuel + 1 := by
  intro fuel
  induction fuel with
  | zero => intro state; simp [rolloutFrom]
  | succ f ih =>
    intro state
    by_cases ht : w.isTerminal (w.act state (p.sample theta state).1).2
    · simp [rolloutFrom, ht]
    · obtain ⟨e1, e2, l1, l2⟩ := ih (w.act state (p.sample theta state).1).2
      simp only [rolloutFrom, ht, if_false, Bool.false_eq_true, List.length_cons]
      omega

lemma accumW_snd_eps_zero (sigma : ℚ) (agg : List ℚ) (eps states : List (Vec d))
    (he : ∀ i, eps.getD i 0 = 0) (init : Mat d × Vec d) :
    (accumW sigma agg eps states init).2 = init.2 := by
  unfold accumW
  generalize List.range agg.length = l
  induction l generalizing init with
  | nil => rfl
  | cons i t ih =>
    rw [List.foldl_cons, ih, he i]
    simp [Matrix.mulVec_zero]

lemma sumEpisodes_closed (w : World d) (p : NoisePolicy d) (theta : Vec d)
    (n L : Nat) :
    sumEpisodes w p theta n L =
      (n • (episode w p theta 0 0 (1 / 2) L).1,
       n • (episode w p theta 0 0 (1 / 2) L).2.1,
       (n : ℚ) * (episode w p theta 0 0 (1 / 2) L).2.2) := by
  induction n with
  | zero => simp [sumEpisodes]
  | succ n ih =>
    unfold sumEpisodes at ih ⊢
    rw [List.range_succ, List.foldl_append, ih]
    simp only [List.foldl_cons, List.foldl_nil, Prod.mk.injEq]
    refine ⟨(succ_nsmul _ n).symm, (succ_nsmul _ n).symm, ?_⟩
    push_cast
    ring

/-- C2: For every recorded reward sequence the reward-to-go pass yields `agg`
with `agg.length = rs.length`, `agg[n] = r_n` for the last index `n`,
`agg[i] = r_i + agg[i+1]` for every `i` with `i + 1 < rs.length`, and
`agg[0]` equal to the sum of all rewards; and `episode` returns `agg[0]` as
the total undiscounted episode return. -/
theorem rewardToGo_suffix_sum_spec (rs : List ℚ) :
    (rewardToGo rs).length = rs.length ∧
    (0 < rs.length →
      (rewardToGo rs).getD (rs.length - 1) 0 = rs.getD (rs.length - 1) 0) ∧
    (∀ i, i + 1 < rs.length →
      (rewardToGo rs).getD i 0 = rs.getD i 0 + (rewardToGo rs).getD (i + 1) 0) ∧
    (rewardToGo rs).getD 0 0 = rs.sum ∧
    (∀ (d : Nat) (w : World d) (p : NoisePolicy d) (theta : Vec d)
        (W0 : Mat d) (N0 : Vec d) (sigma : ℚ) (L : Nat),
      (episode w p theta W0 N0 sigma L).2.2 =
        (rewardToGo (rollout w p theta L).1).getD 0 0) := by
  refine ⟨rewardToGo_length rs, ?_, ?_, ?_, ?_⟩
  · intro h
    rw [rewardToGo_getD, sum_drop_succ rs (rs.length - 1) (by omega)]
    have : rs.length - 1 + 1 = rs.length := by omega
    rw [this, List.drop_length]
    simp
  · intro i hi
    rw [rewardToGo_getD, rewardToGo_getD, sum_drop_succ rs i (by omega)]
  · rw [rewardToGo_getD]
    simp
  · intro d w p theta W0 N0 sigma L
    show (rewardToGo (rollout w p theta L).1).headD 0 = _
    exact headD_eq_getD _

/-- Witness for C2 at the concrete reward list `[1, 2, 3]`, discharging the
two hypotheses `0 < rs.length` and `i + 1 < rs.length` at `i = 1`. -/
theorem rewardToGo_suffix_sum_spec_witness :
    (rewardToGo [1, 2, 3]).getD (([1, 2, 3] : List ℚ).length - 1) 0 =
      ([1, 2, 3] : List ℚ).getD (([1, 2, 3] : List ℚ).length - 1) 0 ∧
    (rewardToGo [1, 2, 3]).getD 1 0 =
      ([1, 2, 3] : List ℚ).getD 1 0 + (rewardToGo [1, 2, 3]).getD 2 0 :=
  ⟨(rewardToGo_suffix_sum_spec [1, 2, 3]).2.1 (by norm_num),
   (rewardToGo_suffix_sum_spec [1, 2, 3]).2.2.1 1 (by norm_num)⟩

/-- C3 counterexample: with `episodeLength = 0` the do-while loop of
`episode` still executes its body once, so one transition is recorded,
exceeding the claimed bound `max_steps = 0`. -/
theorem rollout_zero_budget_records_one_step :
    (rollout W1 P1 vz 0).1.length = 1 ∧
    ¬ ((rollout W1 P1 vz 0).1.length ≤ 0) := by
  norm_num [rollout, rolloutFrom, W1, P1, vz]

/-- C3 amended: for every world, policy, `theta` and `episodeLength`, the
rollout records at least 1 transition (even if the initial state is
terminal, since the terminal check runs only after the first step) and at
most `max 1 episodeLength` transitions: the step limit binds only from
`episodeLength = 1` upward because one loop body always executes. -/
theorem rollout_length_bounds (w : World d) (p : NoisePolicy d)
    (theta : Vec d) (L : Nat) :
    1 ≤ (rollout w p theta L).1.length ∧
    (rollout w p theta L).1.length ≤ max 1 L := by
  obtain ⟨-, -, h1, h2⟩ := rolloutFrom_lengths w p theta (L - 1) 0
  unfold rollout
  exact ⟨h1, by omega⟩

/-- C5: the improvement loop `power` performs exactly `updates` iterations:
with zero updates `theta` is returned unchanged, and with `n + 1` updates it
first calls the batch averager `episodes` at the current `theta`, adds the
returned update vector, and continues with `n` updates. -/
theorem power_unroll (w : World d) (p : NoisePolicy d) (theta : Vec d)
    (uE L : Nat) :
    power w p theta 0 uE L = theta ∧
    ∀ n : Nat, power w p theta (n + 1) uE L =
      power w p (theta + (episodes w p theta uE L).1) n uE L :=
  ⟨rfl, fun _ => rfl⟩

/-- C6: the precision weight used at step index 0 is the identity matrix
regardless of the recorded states, and at every index `i > 0` it is the
outer product of `states[i]` with itself scaled by the reciprocal of the
quadratic form `states[i]ᵗ · sigma · states[i]`. -/
theorem weightAt_identity_and_outer (sigma : ℚ) (states : List (Vec d))
    (i : Nat) :
    weightAt sigma states 0 = 1 ∧
    (0 < i → weightAt sigma states i =
      (quadForm sigma (states.getD i 0))⁻¹ •
        Matrix.vecMulVec (states.getD i 0) (states.getD i 0)) := by
  constructor
  · simp [weightAt]
  · intro hi
    simp [weightAt, Nat.pos_iff_ne_zero.mp hi]

/-- Witness for C6 at `sigma = 1/2`, the singleton state list `[vz]` and
index `i = 1`, discharging the hypothesis `0 < i`. -/
theorem weightAt_identity_and_outer_witness :
    weightAt (1 / 2) ([vz] : List (Vec 1)) 0 = 1 ∧
    weightAt (1 / 2) ([vz] : List (Vec 1)) 1 =
      (quadForm (1 / 2) (([vz] : List (Vec 1)).getD 1 0))⁻¹ •
        Matrix.vecMulVec (([vz] : List (Vec 1)).getD 1 0)
          (([vz] : List (Vec 1)).getD 1 0) :=
  ⟨(weightAt_identity_and_outer (1 / 2) [vz] 0).1,
   (weightAt_identity_and_outer (1 / 2) [vz] 1).2 (by norm_num)⟩

/-- C8: within one episode the rollout loop pushes exactly one reward, one
noise sample `epsilon` and one state per executed loop iteration, so the
three recorded vectors all have the same length (the number of executed
steps). -/
theorem rollout_parallel_lengths (w : World d) (p : NoisePolicy d)
    (theta : Vec d) (L : Nat) :
    (rollout w p theta L).2.1.length = (rollout w p theta L).1.length ∧
    (rollout w p theta L).2.2.length = (rollout w p theta L).1.length := by
  obtain ⟨e1, e2, -, -⟩ := rolloutFrom_lengths w p theta (L - 1) 0
  exact ⟨e1, e2⟩

/-- C10: the outputs of `episode` do not depend on the incoming contents of
the by-reference out-parameters `weightRewards` and `epsilonRewards`: both
accumulators are overwritten with zero (Power.h lines 51–52) before any
read, so two calls differing only in those two inputs return identical
results. -/
theorem episode_ignores_incoming_accumulators (w : World d)
    (p : NoisePolicy d) (theta : Vec d) (sigma : ℚ) (L : Nat)
    (W0 W0' : Mat d) (N0 N0' : Vec d) :
    episode w p theta W0 N0 sigma L = episode w p theta W0' N0' sigma L :=
  rfl

/-- C1: for every world, policy and `theta`, and every `n ≥ 1`, the episode
loop of `episodes` sums the per-episode `weightRewards`, `epsilonRewards`
and returns (first conjunct; in this deterministic embedding every episode
yields the same triple, so the sums are `n` copies), the function divides
each sum by `n` and returns the update `inverse(W-bar) * N-bar` together
with the mean return (second conjunct), which for identical episodes
reduces to the single-episode solution and return (third conjunct). -/
theorem episodes_mean_of_sums (w : World d) (p : NoisePolicy d)
    (theta : Vec d) (n L : Nat) (h : 1 ≤ n) :
    sumEpisodes w p theta n L =
      (n • (episode w p theta 0 0 (1 / 2) L).1,
       n • (episode w p theta 0 0 (1 / 2) L).2.1,
       (n : ℚ) * (episode w p theta 0 0 (1 / 2) L).2.2) ∧
    episodes w p theta n L =
      ((minv ((n : ℚ)⁻¹ • (sumEpisodes w p theta n L).1)).mulVec
         ((n : ℚ)⁻¹ • (sumEpisodes w p theta n L).2.1),
       (sumEpisodes w p theta n L).2.2 / (n : ℚ)) ∧
    episodes w p theta n L =
      ((minv (episode w p theta 0 0 (1 / 2) L).1).mulVec
         (episode w p theta 0 0 (1 / 2) L).2.1,
       (episode w p theta 0 0 (1 / 2) L).2.2) := by
  have hn : ((n : ℚ)) ≠ 0 := Nat.cast_ne_zero.mpr (by omega)
  refine ⟨sumEpisodes_closed w p theta n L, rfl, ?_⟩
  have base : episodes w p theta n L =
      ((minv ((n : ℚ)⁻¹ • (sumEpisodes w p theta n L).1)).mulVec
         ((n : ℚ)⁻¹ • (sumEpisodes w p theta n L).2.1),
       (sumEpisodes w p theta n L).2.2 / (n : ℚ)) := rfl
  rw [base, sumEpisodes_closed]
  simp only [← Nat.cast_smul_eq_nsmul ℚ, smul_smul, inv_mul_cancel₀ hn,
    one_smul, mul_div_cancel_left₀ _ hn]

/-- Witness for C1 at the concrete world `W1`, `n = 1` and three steps,
discharging the hypothesis `1 ≤ n`. -/
theorem episodes_mean_of_sums_witness :
    sumEpisodes W1 P1 vz 1 3 =
      (1 • (episode W1 P1 vz 0 0 (1 / 2) 3).1,
       1 • (episode W1 P1 vz 0 0 (1 / 2) 3).2.1,
       ((1 : Nat) : ℚ) * (episode W1 P1 vz 0 0 (1 / 2) 3).2.2) ∧
    episodes W1 P1 vz 1 3 =
      ((minv (((1 : Nat) : ℚ)⁻¹ • (sumEpisodes W1 P1 vz 1 3).1)).mulVec
         (((1 : Nat) : ℚ)⁻¹ • (sumEpisodes W1 P1 vz 1 3).2.1),
       (sumEpisodes W1 P1 vz 1 3).2.2 / ((1 : Nat) : ℚ)) ∧
    episodes W1 P1 vz 1 3 =
      ((minv (episode W1 P1 vz 0 0 (1 / 2) 3).1).mulVec
         (episode W1 P1 vz 0 0 (1 / 2) 3).2.1,
       (episode W1 P1 vz 0 0 (1 / 2) 3).2.2) :=
  episodes_mean_of_sums W1 P1 vz 1 3 (by norm_num)

/-- C7: with `updateEpisode = 1` the batch averager returns exactly
`inverse(weightRewards) * epsilonRewards` of the single episode and its
return, the division by 1 leaving the sums unchanged. -/
theorem episodes_single_episode_update (w : World d) (p : NoisePolicy d)
    (theta : Vec d) (L : Nat) :
    episodes w p theta 1 L =
      ((minv (episode w p theta 0 0 (1 / 2) L).1).mulVec
         (episode w p theta 0 0 (1 / 2) L).2.1,
       (episode w p theta 0 0 (1 / 2) L).2.2) := by
  have base : episodes w p theta 1 L =
      ((minv (((1 : Nat) : ℚ)⁻¹ • (sumEpisodes w p theta 1 L).1)).mulVec
         (((1 : Nat) : ℚ)⁻¹ • (sumEpisodes w p theta 1 L).2.1),
       (sumEpisodes w p theta 1 L).2.2 / ((1 : Nat) : ℚ)) := rfl
  have hsum : sumEpisodes w p theta 1 L =
      ((episode w p theta 0 0 (1 / 2) L).1,
       (episode w p theta 0 0 (1 / 2) L).2.1,
       (episode w p theta 0 0 (1 / 2) L).2.2) := by
    unfold sumEpisodes
    rw [show List.range 1 = [0] from rfl]
    simp
  rw [base, hsum]
  norm_num

/-- C4 counterexample: at `sigma = 0` on the concrete world `W1` with two
executed steps, the episode completes without raising any error (the source
has no error channel), even though the quadratic form at step index 1 is
zero, i.e. the degenerate-weight condition holds. -/
theorem episode_sigma_zero_no_error :
    exceptOk (episodeExc W1 P1 vz 0 2) = true ∧
    (rollout W1 P1 vz 2).1.length = 2 ∧
    quadForm 0 ((rollout W1 P1 vz 2).2.2.getD 1 0) = 0 := by
  refine ⟨rfl, ?_, ?_⟩
  · norm_num [rollout, rolloutFrom, W1, P1, vz]
  · simp [quadForm]

/-- C4 amended: `episode` never raises; with `sigma = 0` the quadratic form
at every step index `i > 0` is zero, and the per-step weight is computed as
the reciprocal of that zero times the outer product — the degenerate value
is folded silently into the accumulated sums (in IEEE doubles a non-finite
value; in this exact-field model the junk value `0⁻¹ = 0`). -/
theorem episode_sigma_zero_silent_degenerate (w : World d)
    (p : NoisePolicy d) (theta : Vec d) (L : Nat) (states : List (Vec d))
    (i : Nat) (hi : 0 < i) :
    exceptOk (episodeExc w p theta 0 L) = true ∧
    quadForm (0 : ℚ) (states.getD i 0) = 0 ∧
    weightAt (0 : ℚ) states i =
      (0 : ℚ)⁻¹ • Matrix.vecMulVec (states.getD i 0) (states.getD i 0) := by
  have h0 : quadForm (0 : ℚ) (states.getD i 0) = 0 := by simp [quadForm]
  refine ⟨rfl, h0, ?_⟩
  rw [weightAt, if_neg (Nat.pos_iff_ne_zero.mp hi), h0]

/-- Witness for C4's amended theorem at `W1`, two steps, the state list
`[vz, vz]` and index `i = 1`, discharging the hypothesis `0 < i`. -/
theorem episode_sigma_zero_silent_degenerate_witness :
    exceptOk (episodeExc W1 P1 vz 0 2) = true ∧
    quadForm (0 : ℚ) (([vz, vz] : List (Vec 1)).getD 1 0) = 0 ∧
    weightAt (0 : ℚ) ([vz, vz] : List (Vec 1)) 1 =
      (0 : ℚ)⁻¹ • Matrix.vecMulVec (([vz, vz] : List (Vec 1)).getD 1 0)
        (([vz, vz] : List (Vec 1)).getD 1 0) :=
  episode_sigma_zero_silent_degenerate W1 P1 vz 2 [vz, vz] 1 (by norm_num)

/-- C9: Scenario A — in the 1-dimensional world `W2` with constant reward 1
per step, 3-step episodes and exploration noise fixed to zero by `P1`, the
episode's total return `rewards[0]` is 3 and the step-0 weight is the
identity (the scalar 1 in dimension 1).  The recorded states 0, 1, 2 make
the quadratic form nonzero at step indices 1 and 2, so no per-step weight
divides by zero anywhere in this instance, and the resulting update vector
is exactly 0: zero noise makes the noise-weighted sum zero, hence a zero
update (and, the computation staying clear of the degenerate corner, the
exact-field result agrees with a finite floating-point execution). -/
theorem scenarioA_constant_reward :
    (episode W2 P1 vz 0 0 (1 / 2) 3).2.2 = 3 ∧
    weightAt (1 / 2) (rollout W2 P1 vz 3).2.2 0 = 1 ∧
    quadForm (1 / 2) ((rollout W2 P1 vz 3).2.2.getD 1 0) ≠ 0 ∧
    quadForm (1 / 2) ((rollout W2 P1 vz 3).2.2.getD 2 0) ≠ 0 ∧
    (episodes W2 P1 vz 1 3).1 = 0 := by
  refine ⟨?_, by simp [weightAt], ?_, ?_, ?_⟩
  · show (rewardToGo (rollout W2 P1 vz 3).1).headD 0 = 3
    norm_num [rollout, rolloutFrom, W2, P1, vz, rewardToGo, sumSuffix]
  · norm_num [rollout, rolloutFrom, W2, P1, vz, quadForm, Matrix.dotProduct,
      Fin.sum_univ_one, Pi.add_apply, Pi.zero_apply, Pi.one_apply,
      Pi.smul_apply, smul_eq_mul]
  · norm_num [rollout, rolloutFrom, W2, P1, vz, quadForm, Matrix.dotProduct,
      Fin.sum_univ_one, Pi.add_apply, Pi.zero_apply, Pi.one_apply,
      Pi.smul_apply, smul_eq_mul]
  · have hl : (rollout W2 P1 vz 3).2.1 = [0, 0, 0] := by
      norm_num [rollout, rolloutFrom, W2, P1, vz]
    have heps : ∀ i, ((rollout W2 P1 vz 3).2.1).getD i 0 = 0 := by
      intro i
      rw [hl]
      rcases i with _ | _ | _ | n <;> simp [List.getD]
    have hsnd : (episode W2 P1 vz 0 0 (1 / 2) 3).2.1 = 0 := by
      show (accumW (1 / 2) _ _ _ (0, 0)).2 = 0
      exact accumW_snd_eps_zero _ _ _ _ heps _
    have hfold : (sumEpisodes W2 P1 vz 1 3).2.1 = 0 := by
      have hstep : (sumEpisodes W2 P1 vz 1 3).2.1 =
          (0 : Vec 1) + (episode W2 P1 vz 0 0 (1 / 2) 3).2.1 := rfl
      rw [hstep, hsnd, add_zero]
    show (minv (((1 : Nat) : ℚ)⁻¹ • (sumEpisodes W2 P1 vz 1 3).1)).mulVec
        (((1 : Nat) : ℚ)⁻¹ • (sumEpisodes W2 P1 vz 1 3).2.1) = 0
    rw [hfold]
    simp [Matrix.mulVec_zero]

end RL
